import Mathlib

/-
Verification of the manapool Go client's request-execution pipeline:
a shallow embedding of `doRequestWithBody`, `doJSONRequest`, `decodeResponse`
(client.go), `InventoryOptions.Validate` / `GetSellerInventory` (inventory.go)
and the `Timestamp` JSON (un)marshalling (types.go), together with theorems
about the retry loop, rate-limiter consultation, header construction,
error decoding and JSON round-trips.
-/

namespace Manapool

/-! ## Request executor model (doRequestWithBody)

One network exchange (`c.httpClient.Do(req)`) either fails at the transport
level (in which case the Go code inspects `ctx.Err()`), or yields a response
with a status code.  The body of the response is irrelevant to the retry loop,
so an exchange is abstracted to this outcome. -/

/-- Outcome of one `httpClient.Do` call: transport failure (recording whether
`ctx.Err() != nil` at that moment) or an HTTP response with a status code. -/
inductive Exchange where
  | fail (ctxCancelled : Bool)
  | resp (status : Nat)
deriving DecidableEq, Repr

/-- Modelled from the spec: the missing errors file defines `NetworkError`
as carrying a human message and a wrapped underlying cause.  The cause is
abstracted to whether it was the context's error or the transport's error. -/
inductive Cause where
  | ctxError
  | transportError
deriving DecidableEq, Repr

/-- Result of `doRequestWithBody`: either a response (nil error) with some
status, or a network error with the message and wrapped cause passed to
`NewNetworkError` at the corresponding return site in client.go. -/
inductive ReqOutcome where
  | ok (status : Nat)
  | netErr (msg : String) (cause : Cause)
deriving DecidableEq, Repr

/-- A full run of `doRequestWithBody`, instrumented with the number of
`httpClient.Do` calls performed and the number of rate-limiter tokens
consumed (one per successful `rateLimiter.Wait`, zero when `Wait` returns
the context's error, per the `golang.org/x/time/rate` contract). -/
structure RunResult where
  outcome : ReqOutcome
  attempts : Nat
  tokensConsumed : Nat
deriving DecidableEq, Repr

/-- The retry loop of `doRequestWithBody` (client.go): `attempt` ranges from
0 to `maxRetries`; `remaining = maxRetries - attempt` counts the attempts
still allowed after the current one.  On transport failure the context is
checked first (immediate abort), then the loop retries while attempts remain,
else returns `request failed after retries`.  On a response, a status below
500 or an exhausted budget breaks out of the loop returning the response. -/
def runAttempts (exchange : Nat → Exchange) (attempt : Nat) : Nat → ReqOutcome × Nat
  | 0 =>
    match exchange attempt with
    | .fail true => (.netErr "request cancelled" .ctxError, attempt + 1)
    | .fail false => (.netErr "request failed after retries" .transportError, attempt + 1)
    | .resp s => (.ok s, attempt + 1)
  | remaining + 1 =>
    match exchange attempt with
    | .fail true => (.netErr "request cancelled" .ctxError, attempt + 1)
    | .fail false => runAttempts exchange (attempt + 1) remaining
    | .resp s =>
      if s < 500 then (.ok s, attempt + 1)
      else runAttempts exchange (attempt + 1) remaining

/-- Result of the single `c.rateLimiter.Wait(ctx)` call at the top of
`doRequestWithBody`: either a token is granted, or the context was cancelled
while waiting. -/
inductive LimiterResult where
  | ok
  | cancelled
deriving DecidableEq, Repr

/-- The client configuration fields relevant to the retry loop. -/
structure Config where
  maxRetries : Nat
deriving DecidableEq, Repr

/-- `doRequestWithBody` (client.go): wait on the rate limiter once — if that
fails, return `NewNetworkError("rate limiter error", err)` with no attempt
made and no token consumed; otherwise run the attempt loop, having consumed
exactly one token. -/
def doRequestWithBody (cfg : Config) (limiter : LimiterResult)
    (exchange : Nat → Exchange) : RunResult :=
  match limiter with
  | .cancelled => ⟨.netErr "rate limiter error" .ctxError, 0, 0⟩
  | .ok =>
    let r := runAttempts exchange 0 cfg.maxRetries
    ⟨r.1, r.2, 1⟩

/-! ## Header construction -/

/-- The headers attached by `doRequestWithBody` before the attempt loop:
the four standard headers always, and `Content-Type` exactly when the
`contentType` argument is non-empty. -/
def buildHeaders (authToken email userAgent contentType : String) :
    List (String × String) :=
  [("X-ManaPool-Access-Token", authToken),
   ("X-ManaPool-Email", email),
   ("User-Agent", userAgent),
   ("Accept", "application/json")] ++
  (if contentType = "" then [] else [("Content-Type", contentType)])

/-- An outgoing request as built by `doRequestWithBody`: its headers and
whether a body (`io.Reader` argument) is present. -/
structure BuiltRequest where
  headers : List (String × String)
  hasBody : Bool
deriving DecidableEq, Repr

/-- Request construction inside `doRequestWithBody`, abstracted to the
header set and body presence. -/
def buildRequest (authToken email userAgent contentType : String)
    (hasBody : Bool) : BuiltRequest :=
  ⟨buildHeaders authToken email userAgent contentType, hasBody⟩

/-- `doJSONRequest` (client.go): encodes the payload as the body when it is
non-nil (`payloadPresent`), and always passes contentType
`"application/json"` to `doRequestWithBody`, nil payload or not. -/
def doJSONRequestBuild (authToken email userAgent : String)
    (payloadPresent : Bool) : BuiltRequest :=
  buildRequest authToken email userAgent "application/json" payloadPresent

/-! ## Response decoder model (decodeResponse)

`decodeResponse` reads the body, and for a status outside [200, 300) builds
an `APIError` whose message defaults to the raw body but is refined from a
JSON error envelope `{error, message}` when the body unmarshals into it.
The `json.Unmarshal` into that envelope struct is modelled by a recursive
-descent reader of the RFC 8259 grammar: nested object and array member
values, string escape sequences including surrogate pairs, the full number
grammar, and Go's simple-case-folding match of member keys against the two
struct field names.  The body is taken as Unicode text (Go receives raw
bytes; invalid UTF-8 is outside the model). -/

/-- The `"` character (written via its code point to keep string handling
of the parser free of escape-sequence concerns). -/
def quoteChar : Char := Char.ofNat 34

/-- The opening-brace character. -/
def lbraceChar : Char := Char.ofNat 123

/-- The closing-brace character. -/
def rbraceChar : Char := Char.ofNat 125

/-- JSON whitespace. -/
def isWs (c : Char) : Bool := c = ' ' || c = '\t' || c = '\n' || c = '\r'

/-- Decimal digit test. -/
def isDigit (c : Char) : Bool := 48 ≤ c.toNat && c.toNat ≤ 57

/-- Drop leading JSON whitespace. -/
def skipWs : List Char → List Char
  | [] => []
  | c :: cs => if isWs c then skipWs cs else c :: cs

/-- The backslash character. -/
def backslashChar : Char := '\\'

/-- The replacement character U+FFFD, which Go writes for an unpaired
surrogate escape. -/
def replacementChar : Char := Char.ofNat 0xFFFD

/-- Hexadecimal digit value. -/
def hexVal (c : Char) : Option Nat :=
  if 48 ≤ c.toNat && c.toNat ≤ 57 then some (c.toNat - 48)
  else if 97 ≤ c.toNat && c.toNat ≤ 102 then some (c.toNat - 87)
  else if 65 ≤ c.toNat && c.toNat ≤ 70 then some (c.toNat - 55)
  else none

/-- The four hex digits of a `\u` escape. -/
def parseHex4 : List Char → Option (Nat × List Char)
  | a :: b :: c :: d :: rest => do
    let va ← hexVal a
    let vb ← hexVal b
    let vc ← hexVal c
    let vd ← hexVal d
    some (va * 4096 + vb * 256 + vc * 16 + vd, rest)
  | _ => none

/-- Decode the rest of a JSON string literal (after the opening quote):
handles the RFC 8259 escapes, combines surrogate-pair `\u` escapes and
writes U+FFFD for an unpaired surrogate (consuming only the first escape),
as Go's unquoting does; rejects raw control characters below U+0020.
Returns the decoded characters and the input after the closing quote. -/
def parseStringRest : Nat → List Char → Option (List Char × List Char)
  | 0, _ => none
  | _ + 1, [] => none
  | fuel + 1, c :: cs =>
    if c = quoteChar then some ([], cs)
    else if c = backslashChar then
      match cs with
      | [] => none
      | e :: cs2 =>
        if e = 'u' then
          match parseHex4 cs2 with
          | none => none
          | some (n, cs3) =>
            if 0xD800 ≤ n ∧ n ≤ 0xDBFF then
              match cs3 with
              | b1 :: u1 :: cs4 =>
                if b1 = backslashChar ∧ u1 = 'u' then
                  match parseHex4 cs4 with
                  | some (n2, cs5) =>
                    if 0xDC00 ≤ n2 ∧ n2 ≤ 0xDFFF then
                      match parseStringRest fuel cs5 with
                      | some (s, r) =>
                        some (Char.ofNat (0x10000 + (n - 0xD800) * 0x400
                          + (n2 - 0xDC00)) :: s, r)
                      | none => none
                    else
                      match parseStringRest fuel cs3 with
                      | some (s, r) => some (replacementChar :: s, r)
                      | none => none
                  | none =>
                    match parseStringRest fuel cs3 with
                    | some (s, r) => some (replacementChar :: s, r)
                    | none => none
                else
                  match parseStringRest fuel cs3 with
                  | some (s, r) => some (replacementChar :: s, r)
                  | none => none
              | _ =>
                match parseStringRest fuel cs3 with
                | some (s, r) => some (replacementChar :: s, r)
                | none => none
            else if 0xDC00 ≤ n ∧ n ≤ 0xDFFF then
              match parseStringRest fuel cs3 with
              | some (s, r) => some (replacementChar :: s, r)
              | none => none
            else
              match parseStringRest fuel cs3 with
              | some (s, r) => some (Char.ofNat n :: s, r)
              | none => none
        else
          match (if e = quoteChar then some quoteChar
            else if e = backslashChar then some backslashChar
            else if e = '/' then some '/'
            else if e = 'b' then some (Char.ofNat 8)
            else if e = 'f' then some (Char.ofNat 12)
            else if e = 'n' then some '\n'
            else if e = 'r' then some '\r'
            else if e = 't' then some '\t'
            else none) with
          | none => none
          | some d =>
            match parseStringRest fuel cs2 with
            | some (s, r) => some (d :: s, r)
            | none => none
    else if c.toNat < 32 then none
    else
      match parseStringRest fuel cs with
      | some (s, r) => some (c :: s, r)
      | none => none

/-- Leading run of decimal digits. -/
def takeDigits : List Char → List Char × List Char
  | [] => ([], [])
  | c :: cs =>
    if isDigit c then
      let p := takeDigits cs
      (c :: p.1, p.2)
    else ([], c :: cs)

/-- Validate the digits of the JSON integer part: `0`, or a non-zero digit
followed by digits (leading zeros are a syntax error, as in Go). -/
def parseIntDigits : List Char → Option (List Char)
  | [] => none
  | c :: cs =>
    if c = '0' then some cs
    else if isDigit c then some (takeDigits cs).2
    else none

/-- Validate an optional JSON fraction part: a dot requires at least one
digit. -/
def parseFracOpt : List Char → Option (List Char)
  | [] => some []
  | c :: cs =>
    if c = '.' then
      match cs with
      | d :: _ => if isDigit d then some (takeDigits cs).2 else none
      | [] => none
    else some (c :: cs)

/-- Validate an optional JSON exponent part. -/
def parseExpOpt : List Char → Option (List Char)
  | [] => some []
  | c :: cs =>
    if c = 'e' ∨ c = 'E' then
      let cs2 := match cs with
        | s :: r => if s = '+' ∨ s = '-' then r else s :: r
        | [] => []
      match cs2 with
      | d :: _ => if isDigit d then some (takeDigits cs2).2 else none
      | [] => none
    else some (c :: cs)

/-- Validate a JSON number (RFC 8259 grammar) and return the rest of the
input; the numeric value is irrelevant to the envelope. -/
def parseNumRest (cs : List Char) : Option (List Char) := do
  let cs1 := match cs with
    | c :: r => if c = '-' then r else c :: r
    | [] => []
  let cs2 ← parseIntDigits cs1
  let cs3 ← parseFracOpt cs2
  parseExpOpt cs3

/-- Classification of a JSON member value, as far as unmarshalling the
envelope's two `string` fields cares: strings and null matter; numbers,
booleans, objects and arrays only by not being strings. -/
inductive JsonScalar where
  | str (s : String)
  | num
  | boolTrue
  | boolFalse
  | nullVal
  | composite
deriving DecidableEq, Repr

mutual

/-- Parse any JSON value (fuel-bounded recursive descent over the RFC 8259
grammar), returning its classification and the rest of the input. -/
def parseVal : Nat → List Char → Option (JsonScalar × List Char)
  | 0, _ => none
  | _ + 1, [] => none
  | fuel + 1, c :: cs =>
    if c = quoteChar then
      match parseStringRest fuel cs with
      | some (s, r) => some (.str (String.mk s), r)
      | none => none
    else if c = lbraceChar then
      match skipWs cs with
      | d :: cs2 =>
        if d = rbraceChar then some (.composite, cs2)
        else
          match parseObjSkip fuel (d :: cs2) with
          | some r => some (.composite, r)
          | none => none
      | [] => none
    else if c = '[' then
      match skipWs cs with
      | d :: cs2 =>
        if d = ']' then some (.composite, cs2)
        else
          match parseArrSkip fuel (d :: cs2) with
          | some r => some (.composite, r)
          | none => none
      | [] => none
    else if c = 't' then
      match cs with
      | 'r' :: 'u' :: 'e' :: rest => some (.boolTrue, rest)
      | _ => none
    else if c = 'f' then
      match cs with
      | 'a' :: 'l' :: 's' :: 'e' :: rest => some (.boolFalse, rest)
      | _ => none
    else if c = 'n' then
      match cs with
      | 'u' :: 'l' :: 'l' :: rest => some (.nullVal, rest)
      | _ => none
    else if c = '-' ∨ isDigit c then
      match parseNumRest (c :: cs) with
      | some r => some (.num, r)
      | none => none
    else none

/-- Skip the members of a JSON object, positioned at the first key
(non-empty object, opening brace consumed); returns the input after the
closing brace. -/
def parseObjSkip : Nat → List Char → Option (List Char)
  | 0, _ => none
  | fuel + 1, cs =>
    match cs with
    | c :: cs1 =>
      if c = quoteChar then
        match parseStringRest fuel cs1 with
        | some (_, cs2) =>
          match skipWs cs2 with
          | ':' :: cs3 =>
            match parseVal fuel (skipWs cs3) with
            | some (_, cs4) =>
              match skipWs cs4 with
              | ',' :: cs5 => parseObjSkip fuel (skipWs cs5)
              | d :: cs5 => if d = rbraceChar then some cs5 else none
              | [] => none
            | none => none
          | _ => none
        | none => none
      else none
    | [] => none

/-- Skip the elements of a JSON array, positioned at the first element
(non-empty array, opening bracket consumed); returns the input after the
closing bracket. -/
def parseArrSkip : Nat → List Char → Option (List Char)
  | 0, _ => none
  | fuel + 1, cs =>
    match parseVal fuel cs with
    | some (_, cs1) =>
      match skipWs cs1 with
      | ',' :: cs2 => parseArrSkip fuel (skipWs cs2)
      | ']' :: cs2 => some cs2
      | _ => none
    | none => none

end

/-- The anonymous error-envelope struct of `decodeResponse`:
`struct { Error string; Message string }` with JSON keys
`error` and `message`. -/
structure ErrorResp where
  error : String
  message : String
deriving DecidableEq, Repr

/-- One character of `encoding/json`'s field-name match for a
lowercase-ASCII field name: exact, ASCII case fold, or the two Unicode
simple folds that reach ASCII letters (long s U+017F for `s`, kelvin sign
U+212A for `k`). -/
def matchFoldChar (f r : Char) : Bool :=
  r = f || (97 ≤ f.toNat && f.toNat ≤ 122 && r.toNat = f.toNat - 32) ||
  (f = 's' && r.toNat = 0x17F) || (f = 'k' && r.toNat = 0x212A)

/-- Whether a decoded member key matches a struct field name under Go's
simple case folding. -/
def keyMatchesName : List Char → List Char → Bool
  | [], [] => true
  | f :: fs, r :: rs => matchFoldChar f r && keyMatchesName fs rs
  | _, _ => false

/-- The envelope fields assigned so far while decoding members (an
unassigned field keeps Go's zero value, the empty string). -/
structure EnvFields where
  error : Option String
  message : Option String
deriving DecidableEq, Repr

/-- Apply one object member to the envelope struct: a key fold-matching a
field must hold a string (assigned, later members overwriting) or null
(no effect); any other value type for a matched key is an unmarshalling
type error; members with unknown keys are ignored. -/
def applyEnvMember (st : EnvFields) (key : List Char) (v : JsonScalar) :
    Option EnvFields :=
  if keyMatchesName ("error".data) key then
    match v with
    | .str s => some ⟨some s, st.message⟩
    | .nullVal => some st
    | _ => none
  else if keyMatchesName ("message".data) key then
    match v with
    | .str s => some ⟨st.error, some s⟩
    | .nullVal => some st
    | _ => none
  else some st

/-- Decode the members of the top-level envelope object, positioned at the
first key; returns the assigned fields and the input after the closing
brace. -/
def parseEnvMembers : Nat → EnvFields → List Char →
    Option (EnvFields × List Char)
  | 0, _, _ => none
  | fuel + 1, st, cs =>
    match cs with
    | c :: cs1 =>
      if c = quoteChar then
        match parseStringRest fuel cs1 with
        | some (key, cs2) =>
          match skipWs cs2 with
          | ':' :: cs3 =>
            match parseVal fuel (skipWs cs3) with
            | some (v, cs4) =>
              match applyEnvMember st key v with
              | some st2 =>
                match skipWs cs4 with
                | ',' :: cs5 => parseEnvMembers fuel st2 (skipWs cs5)
                | d :: cs5 => if d = rbraceChar then some (st2, cs5) else none
                | [] => none
              | none => none
            | none => none
          | _ => none
        | none => none
      else none
    | [] => none

/-- `json.Unmarshal(body, &errorResp)` in `decodeResponse`: the body must
be a single JSON object (or null, a no-op) with nothing but whitespace
around it, and every member whose key fold-matches `error` or `message`
must hold a string or null; `none` is Unmarshal returning an error
(syntax or type). -/
def unmarshalErrorResp (body : String) : Option ErrorResp :=
  match skipWs body.data with
  | [] => none
  | c :: cs =>
    if c = lbraceChar then
      match skipWs cs with
      | [] => none
      | d :: cs2 =>
        if d = rbraceChar then
          if skipWs cs2 = [] then some ⟨"", ""⟩ else none
        else
          match parseEnvMembers (body.data.length + 1) ⟨none, none⟩
              (d :: cs2) with
          | some (st, rest) =>
            if skipWs rest = [] then
              some ⟨st.error.getD "", st.message.getD ""⟩
            else none
          | none => none
    else
      match c :: cs with
      | 'n' :: 'u' :: 'l' :: 'l' :: rest =>
        if skipWs rest = [] then some ⟨"", ""⟩ else none
      | _ => none

/-- The API error constructed by `decodeResponse` for non-2xx statuses. -/
structure APIError where
  statusCode : Nat
  message : String
deriving DecidableEq, Repr

/-- Modelled from the spec: the missing errors file defines the
classification helper `IsNotFound` on `APIError` as "status is 404". -/
def APIError.IsNotFound (e : APIError) : Bool := e.statusCode == 404

/-- The message `decodeResponse` puts in the `APIError`: the raw body by
default, replaced by the envelope's non-empty `error` field, else its
non-empty `message` field, when the body unmarshals into the envelope. -/
def refineMessage (body : String) : String :=
  match unmarshalErrorResp body with
  | none => body
  | some er =>
    if er.error ≠ "" then er.error
    else if er.message ≠ "" then er.message
    else body

/-- Result of `decodeResponse`: a typed API error, a JSON decode failure on
a success body, or success — distinguishing whether the target was written
(`okSet`) or left untouched (`okUnchanged`). -/
inductive DecodeOutcome (σ : Type) where
  | apiErr (e : APIError)
  | decodeFailed
  | okUnchanged
  | okSet (v : σ)
deriving Repr

/-- `decodeResponse` (client.go), with the target's `json.Unmarshal`
abstracted as `dec` and its presence (`v != nil`) as `targetPresent`:
statuses outside [200, 300) produce an `APIError` (the target is never
written); in the success range the body is decoded into the target only
when the target is present and the body non-empty. -/
def decodeResponse {σ : Type} (dec : String → Option σ) (statusCode : Nat)
    (body : String) (targetPresent : Bool) : DecodeOutcome σ :=
  if statusCode < 200 ∨ 300 ≤ statusCode then
    .apiErr ⟨statusCode, refineMessage body⟩
  else if targetPresent = true ∧ body ≠ "" then
    match dec body with
    | some v => .okSet v
    | none => .decodeFailed
  else
    .okUnchanged

/-! ## Inventory options (types.go / inventory.go) -/

/-- `InventoryOptions` (types.go): pagination options with `int` fields. -/
structure InventoryOptions where
  Limit : Int
  Offset : Int
deriving DecidableEq, Repr

/-- `InventoryOptions.Validate` (types.go): rejects a negative or >500
limit and a negative offset; a zero limit is replaced by the default 500
before the offset check.  The returned options are the (possibly mutated)
receiver. -/
def InventoryOptions.Validate (o : InventoryOptions) :
    Except String InventoryOptions :=
  if o.Limit < 0 then
    .error ("limit must be non-negative, got " ++ toString o.Limit)
  else if o.Limit > 500 then
    .error ("limit must not exceed 500, got " ++ toString o.Limit)
  else
    let o1 := if o.Limit = 0 then ⟨500, o.Offset⟩ else o
    if o1.Offset < 0 then
      .error ("offset must be non-negative, got " ++ toString o1.Offset)
    else .ok o1

/-- The query parameters `GetSellerInventory` (inventory.go) sends after a
successful `Validate`: `limit` and `offset` rendered with `strconv.Itoa`. -/
def buildInventoryParams (o : InventoryOptions) :
    Except String (List (String × String)) :=
  match o.Validate with
  | .error e => .error e
  | .ok o1 => .ok [("limit", toString o1.Limit), ("offset", toString o1.Offset)]

/-! ## Timestamp JSON marshalling (types.go)

`Timestamp` wraps `time.Time`; its `MarshalJSON` emits `null` for the zero
time and otherwise the RFC3339Nano rendering in quotes; `UnmarshalJSON`
strips quotes and tries RFC3339Nano, then the no-colon-offset layout
`2006-01-02T15:04:05.999999-0700`.  A `time.Time` is modelled by its broken
-down components plus the zone offset in minutes; the two `time` layouts
are modelled character by character (calendar facts such as days-per-month
are not re-checked, so the model accepts a superset of Go's parses). -/

/-- Broken-down model of the `time.Time` inside `Timestamp`. -/
structure Timestamp where
  year : Nat
  month : Nat
  day : Nat
  hour : Nat
  minute : Nat
  second : Nat
  nanos : Nat
  offsetMinutes : Int
deriving DecidableEq, Repr

/-- `time.Time.IsZero`: January 1, year 1, 00:00:00 UTC. -/
def Timestamp.isZero (t : Timestamp) : Bool :=
  t.year == 1 && t.month == 1 && t.day == 1 && t.hour == 0 &&
  t.minute == 0 && t.second == 0 && t.nanos == 0 && t.offsetMinutes == 0

/-- Component ranges under which the broken-down model denotes a time the
two layouts can render and re-read (fixed-width fields in range). -/
def Timestamp.Wellformed (t : Timestamp) : Prop :=
  1 ≤ t.year ∧ t.year ≤ 9999 ∧ 1 ≤ t.month ∧ t.month ≤ 12 ∧
  1 ≤ t.day ∧ t.day ≤ 31 ∧ t.hour ≤ 23 ∧ t.minute ≤ 59 ∧ t.second ≤ 59 ∧
  t.nanos ≤ 999999999 ∧ t.offsetMinutes.natAbs < 24 * 60

/-- The decimal digit character for `n % 10`-style values below ten. -/
def digitChar (n : Nat) : Char := Char.ofNat (48 + n)

/-- Zero-padded fixed-width decimal rendering (most significant first);
renders `n % 10 ^ width`. -/
def padDigits : Nat → Nat → List Char
  | 0, _ => []
  | k + 1, n => digitChar (n / 10 ^ k % 10) :: padDigits k n

/-- Remove trailing zero digits (used by the `.999999999` fraction layout,
which omits trailing zeros). -/
def dropTrailingZeros (cs : List Char) : List Char :=
  (cs.reverse.dropWhile (fun c => c = digitChar 0)).reverse

/-- The fractional-seconds part of the RFC3339Nano rendering: absent when
zero, else a dot and the 9-digit nanosecond field with trailing zeros
removed. -/
def fracChars (nanos : Nat) : List Char :=
  if nanos = 0 then [] else '.' :: dropTrailingZeros (padDigits 9 nanos)

/-- The `Z07:00` zone rendering: `Z` for UTC, else a sign and `hh:mm`. -/
def offsetChars (off : Int) : List Char :=
  if off = 0 then ['Z']
  else
    let sign : Char := if off < 0 then '-' else '+'
    let a := off.natAbs
    sign :: (padDigits 2 (a / 60) ++ ':' :: padDigits 2 (a % 60))

/-- `t.Format(time.RFC3339Nano)` on the broken-down model. -/
def formatRFC3339Nano (t : Timestamp) : List Char :=
  padDigits 4 t.year ++ '-' :: padDigits 2 t.month ++ '-' :: padDigits 2 t.day ++
  'T' :: padDigits 2 t.hour ++ ':' :: padDigits 2 t.minute ++
  ':' :: padDigits 2 t.second ++ fracChars t.nanos ++ offsetChars t.offsetMinutes

/-- `Timestamp.MarshalJSON` (types.go): `null` for the zero time, else the
quoted RFC3339Nano rendering. -/
def marshalTimestamp (t : Timestamp) : String :=
  if t.isZero then "null"
  else String.mk (quoteChar :: formatRFC3339Nano t ++ [quoteChar])

/-- The digit value of a digit character. -/
def digitVal (c : Char) : Nat := c.toNat - 48

/-- Read exactly `width` digit characters as a decimal number. -/
def readFixed : Nat → List Char → Option (Nat × List Char)
  | 0, cs => some (0, cs)
  | _ + 1, [] => none
  | k + 1, c :: cs =>
    if isDigit c then
      match readFixed k cs with
      | some (v, rest) => some (digitVal c * 10 ^ k + v, rest)
      | none => none
    else none

/-- Consume one expected literal character. -/
def expectChar (c : Char) : List Char → Option (List Char)
  | [] => none
  | d :: cs => if d = c then some cs else none

/-- The value of a digit string read left to right. -/
def digitsVal (cs : List Char) : Nat :=
  cs.foldl (fun a c => a * 10 + digitVal c) 0

/-- Parse the optional fractional-seconds field into nanoseconds: absent is
zero; present means a dot and one to nine digits, scaled to nanoseconds. -/
def parseFrac : List Char → Option (Nat × List Char)
  | [] => some (0, [])
  | c :: cs =>
    if c = '.' then
      match takeDigits cs with
      | ([], _) => none
      | (ds, rest) =>
        if 9 < ds.length then none
        else some (digitsVal ds * 10 ^ (9 - ds.length), rest)
    else some (0, c :: cs)

/-- Parse the `Z07:00` zone field: `Z`, or a sign and `hh:mm`. -/
def parseOffset : List Char → Option (Int × List Char)
  | [] => none
  | c :: cs =>
    if c = 'Z' then some (0, cs)
    else if c = '+' || c = '-' then
      match readFixed 2 cs with
      | none => none
      | some (h, r1) =>
        match expectChar ':' r1 with
        | none => none
        | some r2 =>
          match readFixed 2 r2 with
          | none => none
          | some (m, r3) =>
            if h ≤ 23 ∧ m ≤ 59 then
              some (if c = '-' then -(h * 60 + m : Int) else (h * 60 + m : Int), r3)
            else none
    else none

/-- Parse the `-0700` zone field of the fallback layout: a sign and `hhmm`
(`Z` accepted for UTC as by Go's zone parsing). -/
def parseOffsetNoColon : List Char → Option (Int × List Char)
  | [] => none
  | c :: cs =>
    if c = 'Z' then some (0, cs)
    else if c = '+' || c = '-' then
      match readFixed 2 cs with
      | none => none
      | some (h, r1) =>
        match readFixed 2 r1 with
        | none => none
        | some (m, r2) =>
          if h ≤ 23 ∧ m ≤ 59 then
            some (if c = '-' then -(h * 60 + m : Int) else (h * 60 + m : Int), r2)
          else none
    else none

/-- Parse the date-time prefix `yyyy-mm-ddThh:mm:ss` shared by both
layouts. -/
def parseDateTimeCore (cs : List Char) :
    Option (Nat × Nat × Nat × Nat × Nat × Nat × List Char) := do
  let (y, r1) ← readFixed 4 cs
  let r2 ← expectChar '-' r1
  let (mo, r3) ← readFixed 2 r2
  let r4 ← expectChar '-' r3
  let (d, r5) ← readFixed 2 r4
  let r6 ← expectChar 'T' r5
  let (h, r7) ← readFixed 2 r6
  let r8 ← expectChar ':' r7
  let (mi, r9) ← readFixed 2 r8
  let r10 ← expectChar ':' r9
  let (s, r11) ← readFixed 2 r10
  some (y, mo, d, h, mi, s, r11)

/-- Field-range validation common to both layouts. -/
def componentsValid (mo d h mi s : Nat) : Prop :=
  1 ≤ mo ∧ mo ≤ 12 ∧ 1 ≤ d ∧ d ≤ 31 ∧ h ≤ 23 ∧ mi ≤ 59 ∧ s ≤ 59

instance (mo d h mi s : Nat) : Decidable (componentsValid mo d h mi s) := by
  unfold componentsValid; infer_instance

/-- `time.Parse(time.RFC3339Nano, s)` on the modelled layout; the whole
input must be consumed. -/
def parseRFC3339Nano (cs : List Char) : Option Timestamp := do
  let (y, mo, d, h, mi, s, r11) ← parseDateTimeCore cs
  let (ns, r12) ← parseFrac r11
  let (off, r13) ← parseOffset r12
  if r13 = [] ∧ componentsValid mo d h mi s then
    some ⟨y, mo, d, h, mi, s, ns, off⟩
  else none

/-- `time.Parse("2006-01-02T15:04:05.999999-0700", s)` on the modelled
fallback layout. -/
def parseNoColonLayout (cs : List Char) : Option Timestamp := do
  let (y, mo, d, h, mi, s, r11) ← parseDateTimeCore cs
  let (ns, r12) ← parseFrac r11
  let (off, r13) ← parseOffsetNoColon r12
  if r13 = [] ∧ componentsValid mo d h mi s then
    some ⟨y, mo, d, h, mi, s, ns, off⟩
  else none

/-- `strings.Trim(s, quote)`: strip all leading and trailing quotes. -/
def trimQuotes (cs : List Char) : List Char :=
  ((cs.dropWhile (fun c => c = quoteChar)).reverse.dropWhile
    (fun c => c = quoteChar)).reverse

/-- `Timestamp.UnmarshalJSON` (types.go): strip quotes, try RFC3339Nano,
then the no-colon-offset layout; `none` is the "cannot parse timestamp"
error.  Note `encoding/json` hands a JSON `null` to this method verbatim. -/
def unmarshalTimestamp (raw : String) : Option Timestamp :=
  let s := trimQuotes raw.data
  match parseRFC3339Nano s with
  | some t => some t
  | none => parseNoColonLayout s

/-! ## Account (types.go) and its JSON shape

Plain structs without custom marshallers are modelled at the JSON-tree
level: `encoding/json` turns `Account` into an object with its six tagged
members, and unmarshalling reads them back by key. -/

/-- A JSON tree. -/
inductive Json where
  | null
  | str (s : String)
  | num (n : Int)
  | jbool (b : Bool)
  | arr (xs : List Json)
  | obj (fields : List (String × Json))

/-- `Account` (types.go). -/
structure Account where
  Username : String
  Email : String
  Verified : Bool
  SinglesLive : Bool
  SealedLive : Bool
  PayoutsEnabled : Bool
deriving DecidableEq, Repr

/-- `json.Marshal` on `Account`: an object with the six tagged members in
declaration order. -/
def Account.toJson (a : Account) : Json :=
  .obj [("username", .str a.Username), ("email", .str a.Email),
        ("verified", .jbool a.Verified), ("singles_live", .jbool a.SinglesLive),
        ("sealed_live", .jbool a.SealedLive),
        ("payouts_enabled", .jbool a.PayoutsEnabled)]

/-- First-match member lookup in a JSON object. -/
def jsonLookup (fields : List (String × Json)) (key : String) : Option Json :=
  match fields with
  | [] => none
  | (k, v) :: rest => if k = key then some v else jsonLookup rest key

/-- Read a member as a Go `string` field. -/
def asStringField (j : Option Json) : Option String :=
  match j with
  | some (.str s) => some s
  | _ => none

/-- Read a member as a Go `bool` field. -/
def asBoolField (j : Option Json) : Option Bool :=
  match j with
  | some (.jbool b) => some b
  | _ => none

/-- `json.Unmarshal` into `Account`: read the six members by their tags. -/
def Account.fromJson (j : Json) : Option Account :=
  match j with
  | .obj fields => do
    let u ← asStringField (jsonLookup fields "username")
    let e ← asStringField (jsonLookup fields "email")
    let v ← asBoolField (jsonLookup fields "verified")
    let sl ← asBoolField (jsonLookup fields "singles_live")
    let se ← asBoolField (jsonLookup fields "sealed_live")
    let pe ← asBoolField (jsonLookup fields "payouts_enabled")
    some ⟨u, e, v, sl, se, pe⟩
  | _ => none

/-! ## Lemmas about the attempt loop -/

/-- A response with status below 500 ends the loop at once, whatever the
remaining budget, returning that response after this single exchange. -/
theorem runAttempts_resp_lt500 (exchange : Nat → Exchange) (a r s : Nat)
    (h1 : exchange a = .resp s) (h2 : s < 500) :
    runAttempts exchange a r = (.ok s, a + 1) := by
  cases r <;> simp [runAttempts, h1, h2]

/-- A transport failure with the context cancelled ends the loop at once. -/
theorem runAttempts_cancel (exchange : Nat → Exchange) (a r : Nat)
    (h : exchange a = .fail true) :
    runAttempts exchange a r = (.netErr "request cancelled" .ctxError, a + 1) := by
  cases r <;> simp [runAttempts, h]

/-- Against a backend answering 500 to every exchange, the loop runs through
its whole budget and returns the last 500 response. -/
theorem runAttempts_const500 (a r : Nat) :
    runAttempts (fun _ => Exchange.resp 500) a r = (.ok 500, a + r + 1) := by
  induction r generalizing a with
  | zero => rfl
  | succ r ih =>
    have hstep : runAttempts (fun _ => Exchange.resp 500) a (r + 1)
        = runAttempts (fun _ => Exchange.resp 500) (a + 1) r := by
      simp [runAttempts]
    rw [hstep, ih]
    rw [Prod.mk.injEq]
    exact ⟨rfl, by omega⟩

/-- The loop never performs more exchanges than its budget allows. -/
theorem runAttempts_attempts_le (exchange : Nat → Exchange) (r a : Nat) :
    (runAttempts exchange a r).2 ≤ a + r + 1 := by
  induction r generalizing a with
  | zero =>
    cases h : exchange a with
    | fail c => cases c <;> simp [runAttempts, h]
    | resp s => simp [runAttempts, h]
  | succ r ih =>
    cases h : exchange a with
    | fail c =>
      cases c with
      | false =>
        have hb := ih (a + 1)
        simp only [runAttempts, h]
        omega
      | true => simp [runAttempts, h]
    | resp s =>
      by_cases hs : s < 500
      · simp [runAttempts, h, hs]
      · have hb := ih (a + 1)
        simp only [runAttempts, h, if_neg hs]
        omega

/-- Against a backend whose every exchange is a (non-cancelled) transport
failure, the loop exhausts its budget and reports the retries as failed. -/
theorem runAttempts_allFail (exchange : Nat → Exchange)
    (h : ∀ i, exchange i = .fail false) (r a : Nat) :
    runAttempts exchange a r
      = (.netErr "request failed after retries" .transportError, a + r + 1) := by
  induction r generalizing a with
  | zero => simp [runAttempts, h a]
  | succ r ih =>
    have hstep : runAttempts exchange a (r + 1)
        = runAttempts exchange (a + 1) r := by
      simp [runAttempts, h a]
    rw [hstep, ih]
    rw [Prod.mk.injEq]
    exact ⟨rfl, by omega⟩

/-- An error produced strictly before the budget is exhausted can only be
the cancellation error, and the exchange that produced it was a transport
failure under a cancelled context. -/
theorem runAttempts_abort (exchange : Nat → Exchange) (r : Nat) :
    ∀ a m c k, runAttempts exchange a r = (.netErr m c, k) → k ≤ a + r →
      m = "request cancelled" ∧ c = .ctxError ∧ exchange (k - 1) = .fail true := by
  induction r with
  | zero =>
    intro a m c k hrun hk
    cases h : exchange a with
    | fail cc =>
      cases cc <;> simp [runAttempts, h] at hrun <;> omega
    | resp s => simp [runAttempts, h] at hrun
  | succ r ih =>
    intro a m c k hrun hk
    cases h : exchange a with
    | fail cc =>
      cases cc with
      | false =>
        have hstep : runAttempts exchange a (r + 1)
            = runAttempts exchange (a + 1) r := by
          simp [runAttempts, h]
        rw [hstep] at hrun
        exact ih (a + 1) m c k hrun (by omega)
      | true =>
        simp [runAttempts, h] at hrun
        obtain ⟨⟨hm, hc⟩, hk2⟩ := hrun
        refine ⟨hm.symm, hc.symm, ?_⟩
        rw [show k - 1 = a by omega]
        exact h
    | resp s =>
      by_cases hs : s < 500
      · simp [runAttempts, h, hs] at hrun
      · have hstep : runAttempts exchange a (r + 1)
            = runAttempts exchange (a + 1) r := by
          simp [runAttempts, h, hs]
        rw [hstep] at hrun
        exact ih (a + 1) m c k hrun (by omega)

/-! ## Claims about the executor -/

/-- C1 (counterexample): the claim says every attempt consumes one
rate-limiter token; with `maxRetries = 1` against an always-500 backend the
pipeline performs 2 attempts but consumes only the single token acquired
before the loop, so token consumption does not match the attempt count. -/
theorem C1_counterexample :
    (doRequestWithBody ⟨1⟩ .ok (fun _ => Exchange.resp 500)).attempts = 2 ∧
    (doRequestWithBody ⟨1⟩ .ok (fun _ => Exchange.resp 500)).tokensConsumed = 1 ∧
    (doRequestWithBody ⟨1⟩ .ok (fun _ => Exchange.resp 500)).tokensConsumed ≠
      (doRequestWithBody ⟨1⟩ .ok (fun _ => Exchange.resp 500)).attempts := by
  exact ⟨rfl, rfl, by decide⟩

/-- C1 (amended): the rate limiter is consulted exactly once per logical
request, before the first attempt; a granted wait consumes one token for
the whole request however many attempts follow, and a failed wait consumes
none and precedes any attempt. -/
theorem C1_limiter_once_per_request (cfg : Config) (exchange : Nat → Exchange) :
    (doRequestWithBody cfg .ok exchange).tokensConsumed = 1 ∧
    (doRequestWithBody cfg .cancelled exchange).tokensConsumed = 0 ∧
    (doRequestWithBody cfg .cancelled exchange).attempts = 0 :=
  ⟨rfl, rfl, rfl⟩

/-- C2: with `maxRetries = n`, an always-500 backend yields exactly `n + 1`
attempts and the run returns the last 500 response with nil error; and no
run of the pipeline ever exceeds `n + 1` attempts. -/
theorem C2_always_500_attempt_budget (n : Nat) (limiter : LimiterResult)
    (exchange : Nat → Exchange) :
    doRequestWithBody ⟨n⟩ .ok (fun _ => Exchange.resp 500)
      = ⟨.ok 500, n + 1, 1⟩ ∧
    (doRequestWithBody ⟨n⟩ limiter exchange).attempts ≤ n + 1 := by
  constructor
  · show (⟨(runAttempts _ 0 n).1, (runAttempts _ 0 n).2, 1⟩ : RunResult) = _
    rw [runAttempts_const500]
    simp
  · cases limiter with
    | cancelled => exact Nat.zero_le _
    | ok =>
      show (runAttempts exchange 0 n).2 ≤ n + 1
      have := runAttempts_attempts_le exchange n 0
      omega

/-- C4: a transport failure under a cancelled context aborts the run at
once with a network error wrapping the context's error; a run whose every
exchange is a non-cancelled transport failure exhausts the budget and
yields a network error wrapping the last transport cause; and any error
produced strictly before the budget is exhausted is the cancellation error
from a transport failure under a cancelled context — the only
immediate-abort path in the loop. -/
theorem C4_transport_failure_policy (exchange : Nat → Exchange)
    (n a r : Nat) (m : String) (c : Cause) :
    (exchange a = .fail true →
      runAttempts exchange a r = (.netErr "request cancelled" .ctxError, a + 1)) ∧
    ((∀ i, exchange i = .fail false) →
      doRequestWithBody ⟨n⟩ .ok exchange
        = ⟨.netErr "request failed after retries" .transportError, n + 1, 1⟩) ∧
    ((doRequestWithBody ⟨n⟩ .ok exchange).outcome = .netErr m c →
      (doRequestWithBody ⟨n⟩ .ok exchange).attempts ≤ n →
      m = "request cancelled" ∧ c = .ctxError ∧
        exchange ((doRequestWithBody ⟨n⟩ .ok exchange).attempts - 1)
          = .fail true) := by
  refine ⟨fun h => runAttempts_cancel exchange a r h, fun h => ?_, fun h1 h2 => ?_⟩
  · show (⟨(runAttempts _ 0 n).1, (runAttempts _ 0 n).2, 1⟩ : RunResult) = _
    rw [runAttempts_allFail exchange h]
    simp
  · have hrun : runAttempts exchange 0 n
        = (.netErr m c, (doRequestWithBody ⟨n⟩ .ok exchange).attempts) := by
      rw [Prod.ext_iff]
      exact ⟨h1, rfl⟩
    exact runAttempts_abort exchange n 0 m c _ hrun (by omega)

/-- C4 (witness): concrete instances — a failure under a cancelled context
at attempt 1 aborts there; two retries of pure transport failures with
`maxRetries = 2` end after 3 attempts; the abort clause applied to a run
that fails at attempt 1 of 3 names the cancelled exchange. -/
theorem C4_witness :
    runAttempts (fun i => if i = 0 then Exchange.fail false else Exchange.fail true)
        1 3 = (.netErr "request cancelled" .ctxError, 2) ∧
    doRequestWithBody ⟨2⟩ .ok (fun _ => Exchange.fail false)
      = ⟨.netErr "request failed after retries" .transportError, 3, 1⟩ ∧
    ("request cancelled" = "request cancelled" ∧ Cause.ctxError = Cause.ctxError ∧
      (fun i => if i = 0 then Exchange.fail false else Exchange.fail true)
        ((doRequestWithBody ⟨2⟩ .ok
          (fun i => if i = 0 then Exchange.fail false else Exchange.fail true)).attempts
            - 1) = .fail true) := by
  refine ⟨(C4_transport_failure_policy
      (fun i => if i = 0 then Exchange.fail false else Exchange.fail true)
      2 1 3 "m" .ctxError).1 (by decide),
    (C4_transport_failure_policy (fun _ => Exchange.fail false)
      2 0 0 "m" .ctxError).2.1 (fun i => rfl),
    (C4_transport_failure_policy
      (fun i => if i = 0 then Exchange.fail false else Exchange.fail true)
      2 0 0 "request cancelled" .ctxError).2.2 (by decide) (by decide)⟩

/-- C5 (counterexample): when the limiter wait is cancelled the pipeline
returns the network error whose message is `"rate limiter error"` — not
`"rate limiter wait cancelled"` as the claim states. -/
theorem C5_counterexample :
    (doRequestWithBody ⟨3⟩ .cancelled (fun _ => Exchange.resp 200)).outcome
      = .netErr "rate limiter error" .ctxError ∧
    "rate limiter error" ≠ "rate limiter wait cancelled" := by
  decide

/-- C5 (amended): cancelling the context before the limiter grants a token
returns immediately a network error with message `"rate limiter error"`
wrapping the context's error; no token is consumed and no HTTP attempt is
made. -/
theorem C5_limiter_wait_cancelled (cfg : Config) (exchange : Nat → Exchange) :
    doRequestWithBody cfg .cancelled exchange
      = ⟨.netErr "rate limiter error" .ctxError, 0, 0⟩ :=
  rfl

/-- C8 (counterexample): a request issued through `doJSONRequest` with a
nil payload has no body, yet carries a `Content-Type: application/json`
header — contradicting the claim that Content-Type is present only when a
body is present. -/
theorem C8_counterexample :
    (doJSONRequestBuild "tok" "a@b.c" "manapool-go/0.2.0" false).hasBody = false ∧
    ("Content-Type", "application/json")
      ∈ (doJSONRequestBuild "tok" "a@b.c" "manapool-go/0.2.0" false).headers := by
  decide

/-- C8 (amended): every built request carries the access-token header, the
email header, the User-Agent header and `Accept: application/json`, and
carries a Content-Type header exactly when the supplied content type is
non-empty; `doJSONRequest` always supplies `"application/json"`, so its
requests carry Content-Type even when the payload is nil (no body). -/
theorem C8_standard_headers (authToken email userAgent contentType : String)
    (hasBody payloadPresent : Bool) :
    (("X-ManaPool-Access-Token", authToken)
        ∈ (buildRequest authToken email userAgent contentType hasBody).headers ∧
     ("X-ManaPool-Email", email)
        ∈ (buildRequest authToken email userAgent contentType hasBody).headers ∧
     ("User-Agent", userAgent)
        ∈ (buildRequest authToken email userAgent contentType hasBody).headers ∧
     ("Accept", "application/json")
        ∈ (buildRequest authToken email userAgent contentType hasBody).headers) ∧
    ((∃ v, ("Content-Type", v)
        ∈ (buildRequest authToken email userAgent contentType hasBody).headers)
      ↔ contentType ≠ "") ∧
    doJSONRequestBuild authToken email userAgent payloadPresent
      = buildRequest authToken email userAgent "application/json" payloadPresent := by
  refine ⟨⟨?_, ?_, ?_, ?_⟩, ⟨?_, ?_⟩, rfl⟩
  · simp [buildRequest, buildHeaders]
  · simp [buildRequest, buildHeaders]
  · simp [buildRequest, buildHeaders]
  · simp [buildRequest, buildHeaders]
  · rintro ⟨v, hv⟩ hct
    rw [hct] at hv
    simp [buildRequest, buildHeaders] at hv
  · intro h
    refine ⟨contentType, ?_⟩
    simp [buildRequest, buildHeaders, if_neg h]

/-! ## Claims about the decoder -/

/-- C3: a response status below 500 terminates the attempt loop immediately
with that response (one exchange, no retry); from the first attempt this
means exactly one attempt; decoding such a non-2xx response yields an API
error carrying the status; and the `IsNotFound` classification helper holds
exactly for status 404. -/
theorem C3_sub500_no_retry {σ : Type} (dec : String → Option σ)
    (exchange : Nat → Exchange) (n a r s : Nat) (tp : Bool) (body : String)
    (h1 : exchange a = .resp s) (h2 : s < 500) :
    runAttempts exchange a r = (.ok s, a + 1) ∧
    (exchange 0 = .resp s → doRequestWithBody ⟨n⟩ .ok exchange = ⟨.ok s, 1, 1⟩) ∧
    (s < 200 ∨ 300 ≤ s →
      decodeResponse dec s body tp = .apiErr ⟨s, refineMessage body⟩) ∧
    (∀ e : APIError, e.IsNotFound = true ↔ e.statusCode = 404) := by
  refine ⟨runAttempts_resp_lt500 exchange a r s h1 h2, fun h0 => ?_,
    fun hs => ?_, fun e => ?_⟩
  · show (⟨(runAttempts _ 0 n).1, (runAttempts _ 0 n).2, 1⟩ : RunResult) = _
    rw [runAttempts_resp_lt500 exchange 0 n s h0 h2]
  · unfold decodeResponse
    rw [if_pos hs]
  · simp [APIError.IsNotFound]

/-- C3 (witness): a backend answering 404 from the start gives one attempt,
the 404 response back, an API error on decode, and `IsNotFound`. -/
theorem C3_witness :
    runAttempts (fun _ => Exchange.resp 404) 0 3 = (.ok 404, 1) ∧
    doRequestWithBody ⟨3⟩ .ok (fun _ => Exchange.resp 404) = ⟨.ok 404, 1, 1⟩ ∧
    decodeResponse (fun _ => (none : Option Unit)) 404
        "\x7b\"error\":\"not found\"\x7d" true
      = .apiErr ⟨404, refineMessage "\x7b\"error\":\"not found\"\x7d"⟩ ∧
    (APIError.mk 404 "not found").IsNotFound = true := by
  obtain ⟨p1, p2, p3, p4⟩ := C3_sub500_no_retry (fun _ => (none : Option Unit))
    (fun _ => Exchange.resp 404) 3 0 3 404 true
    "\x7b\"error\":\"not found\"\x7d" rfl (by omega)
  exact ⟨p1, p2 rfl, p3 (by omega), (p4 ⟨404, "not found"⟩).2 rfl⟩

/-- C6: a status outside [200, 300) decodes to an API error carrying that
status, whose message is the envelope's `error` field when the body parses
with one non-empty, else the `message` field when non-empty, else the raw
body; the target is never written; the body `{"error":"not found"}`
refines to exactly `not found`, and so do bodies with a nested member, an
escape sequence in the string, or a case-variant key. -/
theorem C6_decode_error_envelope {σ : Type} (dec : String → Option σ)
    (statusCode : Nat) (body : String) (targetPresent : Bool) (er : ErrorResp)
    (hs : statusCode < 200 ∨ 300 ≤ statusCode) :
    decodeResponse dec statusCode body targetPresent
      = .apiErr ⟨statusCode, refineMessage body⟩ ∧
    (unmarshalErrorResp body = some er → er.error ≠ "" →
      refineMessage body = er.error) ∧
    (unmarshalErrorResp body = some er → er.error = "" → er.message ≠ "" →
      refineMessage body = er.message) ∧
    (unmarshalErrorResp body = none → refineMessage body = body) ∧
    (refineMessage "\x7b\"error\":\"not found\"\x7d" = "not found" ∧
     refineMessage "\x7b\"error\":\"x\",\"details\":\x7b\"code\":5\x7d\x7d" = "x" ∧
     refineMessage "\x7b\"error\":\"a\\\"b\"\x7d" = String.mk ['a', quoteChar, 'b'] ∧
     refineMessage "\x7b\"Error\":\"not found\"\x7d" = "not found") := by
  refine ⟨?_, ?_, ?_, ?_, by decide, by decide, by decide, by decide⟩
  · unfold decodeResponse
    rw [if_pos hs]
  · intro hu he
    unfold refineMessage
    rw [hu]
    simp [he]
  · intro hu he hm
    unfold refineMessage
    rw [hu]
    simp [he, hm]
  · intro hu
    unfold refineMessage
    rw [hu]

/-- C6 (witness): concrete decodes — a 404 with the `error` envelope, the
`message` fallback, a plain-text body kept raw, and the refinements through
a nested member, an escaped quote, and a case-variant key. -/
theorem C6_witness :
    decodeResponse (fun _ => (none : Option Unit)) 404
        "\x7b\"error\":\"not found\"\x7d" true
      = .apiErr ⟨404, refineMessage "\x7b\"error\":\"not found\"\x7d"⟩ ∧
    refineMessage "\x7b\"error\":\"x\",\"details\":\x7b\"code\":5\x7d\x7d" = "x" ∧
    refineMessage "\x7b\"error\":\"a\\\"b\"\x7d" = String.mk ['a', quoteChar, 'b'] ∧
    refineMessage "\x7b\"Error\":\"not found\"\x7d" = "not found" ∧
    refineMessage "\x7b\"error\":\"not found\"\x7d" = "not found" ∧
    refineMessage "\x7b\"message\":\"unauthorized\"\x7d" = "unauthorized" ∧
    refineMessage "Internal Server Error" = "Internal Server Error" := by
  refine ⟨(C6_decode_error_envelope (fun _ => (none : Option Unit)) 404
      "\x7b\"error\":\"not found\"\x7d" true ⟨"not found", ""⟩
      (by omega)).1,
    (C6_decode_error_envelope (fun _ => (none : Option Unit)) 404
      "\x7b\"error\":\"not found\"\x7d" true ⟨"not found", ""⟩
      (by omega)).2.2.2.2.2.1,
    (C6_decode_error_envelope (fun _ => (none : Option Unit)) 404
      "\x7b\"error\":\"not found\"\x7d" true ⟨"not found", ""⟩
      (by omega)).2.2.2.2.2.2.1,
    (C6_decode_error_envelope (fun _ => (none : Option Unit)) 404
      "\x7b\"error\":\"not found\"\x7d" true ⟨"not found", ""⟩
      (by omega)).2.2.2.2.2.2.2, ?_, ?_, ?_⟩
  · exact (C6_decode_error_envelope (fun _ => (none : Option Unit)) 404
      "\x7b\"error\":\"not found\"\x7d" true ⟨"not found", ""⟩
      (by omega)).2.1 (by decide) (by decide)
  · exact (C6_decode_error_envelope (fun _ => (none : Option Unit)) 401
      "\x7b\"message\":\"unauthorized\"\x7d" true ⟨"", "unauthorized"⟩
      (by omega)).2.2.1 (by decide) (by decide) (by decide)
  · exact (C6_decode_error_envelope (fun _ => (none : Option Unit)) 500
      "Internal Server Error" true ⟨"", ""⟩
      (by omega)).2.2.2.1 (by decide)

/-- C7: a status in the success range with an empty body or an absent
target decodes to success without writing the target. -/
theorem C7_success_empty_body {σ : Type} (dec : String → Option σ)
    (statusCode : Nat) (body : String) (targetPresent : Bool)
    (hs : 200 ≤ statusCode ∧ statusCode < 300)
    (h : body = "" ∨ targetPresent = false) :
    decodeResponse dec statusCode body targetPresent = .okUnchanged := by
  have hns : ¬(statusCode < 200 ∨ 300 ≤ statusCode) := by omega
  have h2 : ¬(targetPresent = true ∧ body ≠ "") := by
    rcases h with h | h
    · rintro ⟨-, hb⟩; exact hb h
    · rintro ⟨ht, -⟩; rw [h] at ht; exact Bool.false_ne_true ht
  unfold decodeResponse
  rw [if_neg hns, if_neg h2]

/-- C7 (witness): a 204 with empty body and a present target decodes to
success leaving the target untouched; likewise a 200 with a nil target. -/
theorem C7_witness :
    decodeResponse (fun _ => (none : Option Unit)) 204 "" true
      = .okUnchanged ∧
    decodeResponse (fun _ => (none : Option Unit)) 200 "ignored" false
      = .okUnchanged := by
  exact ⟨C7_success_empty_body (fun _ => (none : Option Unit)) 204 "" true
      (by omega) (Or.inl rfl),
    C7_success_empty_body (fun _ => (none : Option Unit)) 200 "ignored" false
      (by omega) (Or.inr rfl)⟩

/-! ## Claims about the inventory options -/

/-- C10: `Validate` errors exactly when the limit is negative, exceeds 500,
or the offset is negative; a zero limit with a valid offset is replaced by
the default 500, so `GetSellerInventory` sends `limit=500`. -/
theorem C10_validate_defaults (o : InventoryOptions) :
    ((∃ e, o.Validate = .error e) ↔
      (o.Limit < 0 ∨ o.Limit > 500 ∨ o.Offset < 0)) ∧
    (o.Limit = 0 → 0 ≤ o.Offset →
      o.Validate = .ok ⟨500, o.Offset⟩ ∧
      buildInventoryParams o
        = .ok [("limit", "500"), ("offset", toString o.Offset)]) := by
  constructor
  · constructor
    · rintro ⟨e, he⟩
      by_contra hc
      push_neg at hc
      obtain ⟨h1, h2, h3⟩ := hc
      unfold InventoryOptions.Validate at he
      rw [if_neg (by omega), if_neg (by omega)] at he
      by_cases h0 : o.Limit = 0 <;>
        simp only [h0, if_true, if_false, reduceIte] at he <;>
        rw [if_neg (by simp; omega)] at he <;> cases he
    · intro hc
      unfold InventoryOptions.Validate
      by_cases h1 : o.Limit < 0
      · exact ⟨"limit must be non-negative, got " ++ toString o.Limit,
          by rw [if_pos h1]⟩
      · by_cases h2 : o.Limit > 500
        · exact ⟨"limit must not exceed 500, got " ++ toString o.Limit,
            by rw [if_neg h1, if_pos h2]⟩
        · have h3 : o.Offset < 0 := by omega
          refine ⟨"offset must be non-negative, got " ++ toString o.Offset, ?_⟩
          rw [if_neg h1, if_neg h2]
          by_cases h0 : o.Limit = 0 <;> simp [h0, h3]
  · intro h0 hoff
    have hval : o.Validate = .ok ⟨500, o.Offset⟩ := by
      unfold InventoryOptions.Validate
      rw [if_neg (by omega), if_neg (by omega)]
      simp only [h0, if_true, reduceIte]
      rw [if_neg (by simp; omega)]
    refine ⟨hval, ?_⟩
    unfold buildInventoryParams
    rw [hval]
    rfl

/-- C10 (witness): a zero limit with offset 7 validates to limit 500 and
the request carries `limit=500`. -/
theorem C10_witness :
    InventoryOptions.Validate ⟨0, 7⟩ = .ok ⟨500, 7⟩ ∧
    buildInventoryParams ⟨0, 7⟩ = .ok [("limit", "500"), ("offset", "7")] := by
  have h := (C10_validate_defaults ⟨0, 7⟩).2 rfl (by decide)
  exact h

/-! ## Digit-string lemmas for the Timestamp round trip -/

/-- The head predicate used to stop a digit run. -/
def headNotDigit : List Char → Prop
  | [] => True
  | c :: _ => isDigit c = false

theorem digitChar_toNat (d : Nat) (h : d < 10) : (digitChar d).toNat = 48 + d := by
  interval_cases d <;> decide

theorem isDigit_digitChar (d : Nat) (h : d < 10) : isDigit (digitChar d) = true := by
  interval_cases d <;> decide

theorem digitVal_digitChar (d : Nat) (h : d < 10) : digitVal (digitChar d) = d := by
  interval_cases d <;> decide

theorem padDigits_length (k n : Nat) : (padDigits k n).length = k := by
  induction k generalizing n with
  | zero => rfl
  | succ k ih => simp [padDigits, ih]

theorem padDigits_digits (k n : Nat) : ∀ c ∈ padDigits k n, isDigit c = true := by
  induction k generalizing n with
  | zero => intro c hc; cases hc
  | succ k ih =>
    intro c hc
    rcases List.mem_cons.mp hc with h | h
    · rw [h]; exact isDigit_digitChar _ (Nat.mod_lt _ (by omega))
    · exact ih n c h

theorem mod_pow_succ_digit (n k : Nat) :
    n / 10 ^ k % 10 * 10 ^ k + n % 10 ^ k = n % 10 ^ (k + 1) := by
  rw [pow_succ, Nat.mod_mul]
  ring

theorem readFixed_padDigits (k : Nat) :
    ∀ n rest, readFixed k (padDigits k n ++ rest) = some (n % 10 ^ k, rest) := by
  induction k with
  | zero => intro n rest; simp [readFixed, padDigits, Nat.mod_one]
  | succ k ih =>
    intro n rest
    have hd : n / 10 ^ k % 10 < 10 := Nat.mod_lt _ (by omega)
    show readFixed (k + 1) (digitChar (n / 10 ^ k % 10) :: (padDigits k n ++ rest))
      = some (n % 10 ^ (k + 1), rest)
    rw [← mod_pow_succ_digit n k]
    simp [readFixed, isDigit_digitChar _ hd, ih n rest, digitVal_digitChar _ hd]

/-- `readFixed` inverts `padDigits` on in-range values. -/
theorem readFixed_pad_of_lt (k n : Nat) (h : n < 10 ^ k) (rest : List Char) :
    readFixed k (padDigits k n ++ rest) = some (n, rest) := by
  rw [readFixed_padDigits, Nat.mod_eq_of_lt h]

theorem digitsVal_from (a : Nat) (ys : List Char) :
    ys.foldl (fun b c => b * 10 + digitVal c) a
      = a * 10 ^ ys.length + digitsVal ys := by
  induction ys generalizing a with
  | nil => simp [digitsVal]
  | cons c ys ih =>
    show ys.foldl _ (a * 10 + digitVal c) = _
    rw [ih]
    have : digitsVal (c :: ys) = digitVal c * 10 ^ ys.length + digitsVal ys := by
      show ys.foldl _ (0 * 10 + digitVal c) = _
      rw [ih]
      ring_nf
    rw [this]
    simp [List.length_cons, pow_succ]
    ring

theorem digitsVal_append (xs ys : List Char) :
    digitsVal (xs ++ ys) = digitsVal xs * 10 ^ ys.length + digitsVal ys := by
  unfold digitsVal
  rw [List.foldl_append]
  exact digitsVal_from _ ys

theorem digitsVal_padDigits (k n : Nat) :
    digitsVal (padDigits k n) = n % 10 ^ k := by
  induction k with
  | zero => simp [digitsVal, padDigits, Nat.mod_one]
  | succ k ih =>
    have hd : n / 10 ^ k % 10 < 10 := Nat.mod_lt _ (by omega)
    show (padDigits k n).foldl _ (0 * 10 + digitVal (digitChar (n / 10 ^ k % 10))) = _
    rw [digitsVal_from, padDigits_length, digitVal_digitChar _ hd]
    rw [show (0 * 10 + n / 10 ^ k % 10) = n / 10 ^ k % 10 by omega]
    rw [ih, mod_pow_succ_digit]

theorem digitsVal_replicate_zero (m : Nat) :
    digitsVal (List.replicate m (digitChar 0)) = 0 := by
  induction m with
  | zero => rfl
  | succ m ih =>
    rw [List.replicate_succ]
    show (List.replicate m (digitChar 0)).foldl _ (0 * 10 + digitVal (digitChar 0)) = 0
    rw [digitsVal_from]
    rw [show (0 * 10 + digitVal (digitChar 0)) = 0 by decide]
    simp [ih]

theorem digitsVal_append_zeros (t : List Char) (m : Nat) :
    digitsVal (t ++ List.replicate m (digitChar 0)) = digitsVal t * 10 ^ m := by
  rw [digitsVal_append, List.length_replicate, digitsVal_replicate_zero,
    Nat.add_zero]

/-- A digit list is its trailing-zero-stripped prefix plus a run of zero
digits. -/
theorem dropTrailingZeros_spec (cs : List Char) :
    ∃ m, cs = dropTrailingZeros cs ++ List.replicate m (digitChar 0) := by
  refine ⟨(cs.reverse.takeWhile (fun c => c = digitChar 0)).length, ?_⟩
  have hsplit := List.takeWhile_append_dropWhile
    (p := fun c => decide (c = digitChar 0)) (l := cs.reverse)
  have htake : cs.reverse.takeWhile (fun c => decide (c = digitChar 0))
      = List.replicate (cs.reverse.takeWhile
          (fun c => decide (c = digitChar 0))).length (digitChar 0) := by
    apply List.eq_replicate_of_mem
    intro b hb
    have := List.mem_takeWhile_imp hb
    exact of_decide_eq_true this
  calc cs = cs.reverse.reverse := by rw [List.reverse_reverse]
    _ = (cs.reverse.takeWhile (fun c => decide (c = digitChar 0))
          ++ cs.reverse.dropWhile (fun c => decide (c = digitChar 0))).reverse := by
        rw [hsplit]
    _ = dropTrailingZeros cs
          ++ (cs.reverse.takeWhile (fun c => decide (c = digitChar 0))).reverse := by
        rw [List.reverse_append]; rfl
    _ = _ := by
        rw [htake, List.reverse_replicate, List.length_replicate]

theorem mem_dropTrailingZeros (cs : List Char) (c : Char)
    (h : c ∈ dropTrailingZeros cs) : c ∈ cs := by
  unfold dropTrailingZeros at h
  rw [List.mem_reverse] at h
  have := (List.dropWhile_sublist _).subset h
  rw [List.mem_reverse] at this
  exact this

theorem takeDigits_append (t rest : List Char)
    (ht : ∀ c ∈ t, isDigit c = true) (hr : headNotDigit rest) :
    takeDigits (t ++ rest) = (t, rest) := by
  induction t with
  | nil =>
    cases rest with
    | nil => rfl
    | cons c cs =>
      have : isDigit c = false := hr
      simp [takeDigits, this]
  | cons c t ih =>
    have hc : isDigit c = true := ht c (List.mem_cons_self c t)
    have := ih (fun d hd => ht d (List.mem_cons_of_mem c hd))
    simp [takeDigits, hc, this]

/-- Parsing the rendered fraction recovers the nanoseconds, leaving the
following zone characters untouched. -/
theorem parseFrac_fracChars (ns : Nat) (h : ns ≤ 999999999) (rest : List Char)
    (hne : rest ≠ []) (hd : headNotDigit rest)
    (hdot : ∀ c cs, rest = c :: cs → c ≠ '.') :
    parseFrac (fracChars ns ++ rest) = some (ns, rest) := by
  by_cases h0 : ns = 0
  · subst h0
    unfold fracChars
    rw [if_pos rfl]
    cases rest with
    | nil => exact absurd rfl hne
    | cons c cs =>
      have hc : ¬(c = '.') := hdot c cs rfl
      simp [parseFrac, hc]
  · unfold fracChars
    rw [if_neg h0]
    obtain ⟨m, hm⟩ := dropTrailingZeros_spec (padDigits 9 ns)
    generalize dropTrailingZeros (padDigits 9 ns) = t at hm ⊢
    have hlen : t.length + m = 9 := by
      have := congrArg List.length hm
      simp [padDigits_length] at this
      omega
    have htd : ∀ c ∈ t, isDigit c = true := fun c hc =>
      padDigits_digits 9 ns c (hm ▸ List.mem_append_left _ hc)
    have hval : digitsVal t * 10 ^ m = ns := by
      have h1 : digitsVal (padDigits 9 ns) = ns := by
        rw [digitsVal_padDigits, Nat.mod_eq_of_lt (by omega)]
      rw [hm, digitsVal_append_zeros] at h1
      exact h1
    have htne : t ≠ [] := by
      intro h0t
      rw [h0t] at hval
      simp [digitsVal] at hval
      omega
    obtain ⟨c, t2, hct⟩ := List.exists_cons_of_ne_nil htne
    subst hct
    show parseFrac ('.' :: (c :: t2 ++ rest)) = some (ns, rest)
    simp only [parseFrac, reduceIte]
    rw [takeDigits_append (c :: t2) rest htd hd]
    have hle : ¬(9 < (c :: t2).length) := by
      simp only [List.length_cons] at hlen ⊢
      omega
    simp only [hle, if_false, reduceIte]
    have h9 : 9 - (c :: t2).length = m := by
      simp only [List.length_cons] at hlen ⊢
      omega
    rw [h9, hval]

/-- `readFixed` inverts `padDigits` at the end of the input. -/
theorem readFixed_pad_exact (k n : Nat) (h : n < 10 ^ k) :
    readFixed k (padDigits k n) = some (n, []) := by
  have := readFixed_pad_of_lt k n h []
  rwa [List.append_nil] at this

/-- Parsing the rendered zone recovers the offset and consumes the rest of
the input. -/
theorem parseOffset_offsetChars (off : Int) (h : off.natAbs < 24 * 60) :
    parseOffset (offsetChars off) = some (off, []) := by
  by_cases h0 : off = 0
  · subst h0
    rfl
  · have hh : off.natAbs / 60 < 100 := by omega
    have hm : off.natAbs % 60 < 100 := by omega
    have hh23 : off.natAbs / 60 ≤ 23 := by omega
    have hm59 : off.natAbs % 60 ≤ 59 := by omega
    by_cases hneg : off < 0
    · have hform : offsetChars off = '-' :: (padDigits 2 (off.natAbs / 60)
          ++ ':' :: padDigits 2 (off.natAbs % 60)) := by
        unfold offsetChars
        rw [if_neg h0]
        simp only [if_pos hneg]
      rw [hform]
      have e1 : (('-' : Char) = 'Z') = False := by simp
      have e2 : (('-' : Char) = '+') = False := by simp
      have e3 : (('-' : Char) = '-') = True := by simp
      have e4 : (((':') : Char) = ':') = True := by simp
      simp only [parseOffset, readFixed_pad_of_lt 2 _ hh,
        readFixed_pad_exact 2 _ hm, expectChar, e1, e2, e3, e4, decide_True,
        decide_False, Bool.false_or, Bool.or_true, Bool.true_or, hh23, hm59,
        and_self, if_true, if_false, Option.some.injEq, Prod.mk.injEq, and_true]
      omega
    · have hform : offsetChars off = '+' :: (padDigits 2 (off.natAbs / 60)
          ++ ':' :: padDigits 2 (off.natAbs % 60)) := by
        unfold offsetChars
        rw [if_neg h0]
        simp only [if_neg hneg]
      rw [hform]
      have e1 : (('+' : Char) = 'Z') = False := by simp
      have e2 : (('+' : Char) = '+') = True := by simp
      have e3 : (('+' : Char) = '-') = False := by simp
      have e4 : (((':') : Char) = ':') = True := by simp
      simp only [parseOffset, readFixed_pad_of_lt 2 _ hh,
        readFixed_pad_exact 2 _ hm, expectChar, e1, e2, e3, e4, decide_True,
        decide_False, Bool.false_or, Bool.or_true, Bool.true_or, hh23, hm59,
        and_self, if_true, if_false, Option.some.injEq, Prod.mk.injEq, and_true]
      omega

theorem digit_ne_quote (c : Char) (h : isDigit c = true) : c ≠ quoteChar := by
  intro he
  rw [he] at h
  exact absurd h (by decide)

theorem offsetChars_cases (off : Int) :
    ∃ c cs, offsetChars off = c :: cs ∧ (c = 'Z' ∨ c = '+' ∨ c = '-') := by
  unfold offsetChars
  by_cases h0 : off = 0
  · refine ⟨'Z', [], ?_, Or.inl rfl⟩
    rw [if_pos h0]
  · by_cases hneg : off < 0
    · refine ⟨'-', padDigits 2 (off.natAbs / 60)
        ++ ':' :: padDigits 2 (off.natAbs % 60), ?_, Or.inr (Or.inr rfl)⟩
      rw [if_neg h0]
      simp only [if_pos hneg]
    · refine ⟨'+', padDigits 2 (off.natAbs / 60)
        ++ ':' :: padDigits 2 (off.natAbs % 60), ?_, Or.inr (Or.inl rfl)⟩
      rw [if_neg h0]
      simp only [if_neg hneg]

theorem offsetChars_head_ok (off : Int) :
    offsetChars off ≠ [] ∧ headNotDigit (offsetChars off) ∧
    (∀ c cs, offsetChars off = c :: cs → c ≠ '.') := by
  obtain ⟨c, cs, hoc, hc⟩ := offsetChars_cases off
  rw [hoc]
  refine ⟨by simp, ?_, ?_⟩
  · show isDigit c = false
    rcases hc with rfl | rfl | rfl <;> decide
  · intro d ds hd
    injection hd with hd1 hd2
    subst hd1
    rcases hc with rfl | rfl | rfl <;> decide

theorem offsetChars_no_quote (off : Int) :
    ∀ c ∈ offsetChars off, c ≠ quoteChar := by
  intro c hc
  obtain ⟨d, ds, hoc, hd⟩ := offsetChars_cases off
  rw [hoc] at hc
  rcases List.mem_cons.mp hc with h | h
  · subst h
    rcases hd with rfl | rfl | rfl <;> decide
  · have hds : ds = padDigits 2 (off.natAbs / 60) ++ ':' :: padDigits 2 (off.natAbs % 60)
        ∨ ds = [] := by
      unfold offsetChars at hoc
      by_cases h0 : off = 0
      · rw [if_pos h0] at hoc
        injection hoc with h1 h2
        exact Or.inr h2.symm
      · rw [if_neg h0] at hoc
        simp only at hoc
        injection hoc with h1 h2
        exact Or.inl h2.symm
    rcases hds with rfl | rfl
    · rcases List.mem_append.mp h with h | h
      · exact digit_ne_quote c (padDigits_digits _ _ c h)
      · rcases List.mem_cons.mp h with h | h
        · subst h; decide
        · exact digit_ne_quote c (padDigits_digits _ _ c h)
    · cases h

theorem fracChars_no_quote (ns : Nat) : ∀ c ∈ fracChars ns, c ≠ quoteChar := by
  intro c hc
  unfold fracChars at hc
  by_cases h0 : ns = 0
  · rw [if_pos h0] at hc
    cases hc
  · rw [if_neg h0] at hc
    rcases List.mem_cons.mp hc with h | h
    · subst h; decide
    · exact digit_ne_quote c (padDigits_digits 9 ns c (mem_dropTrailingZeros _ _ h))

theorem format_no_quote (t : Timestamp) :
    ∀ c ∈ formatRFC3339Nano t, c ≠ quoteChar := by
  intro c hc
  unfold formatRFC3339Nano at hc
  simp only [List.mem_append, List.mem_cons] at hc
  rcases hc with ((((((hc | hc) | hc) | hc) | hc) | hc) | hc) | hc
  · exact digit_ne_quote c (padDigits_digits _ _ c hc)
  · rcases hc with hc | hc
    · subst hc; decide
    · exact digit_ne_quote c (padDigits_digits _ _ c hc)
  · rcases hc with hc | hc
    · subst hc; decide
    · exact digit_ne_quote c (padDigits_digits _ _ c hc)
  · rcases hc with hc | hc
    · subst hc; decide
    · exact digit_ne_quote c (padDigits_digits _ _ c hc)
  · rcases hc with hc | hc
    · subst hc; decide
    · exact digit_ne_quote c (padDigits_digits _ _ c hc)
  · rcases hc with hc | hc
    · subst hc; decide
    · exact digit_ne_quote c (padDigits_digits _ _ c hc)
  · exact fracChars_no_quote _ c hc
  · exact offsetChars_no_quote _ c hc

theorem dropWhile_no_quote (l : List Char) (h : ∀ c ∈ l, c ≠ quoteChar) :
    l.dropWhile (fun c => c = quoteChar) = l := by
  cases l with
  | nil => rfl
  | cons c cs =>
    have := h c (List.mem_cons_self c cs)
    simp [List.dropWhile_cons, this]

/-- Stripping quotes from a quote-wrapped quote-free string recovers it. -/
theorem trimQuotes_wrap (cs : List Char) (h : ∀ c ∈ cs, c ≠ quoteChar) :
    trimQuotes (quoteChar :: cs ++ [quoteChar]) = cs := by
  cases cs with
  | nil => decide
  | cons c cs2 =>
    have hc : c ≠ quoteChar := h c (List.mem_cons_self c cs2)
    unfold trimQuotes
    have h1 : (quoteChar :: (c :: cs2) ++ [quoteChar]).dropWhile
        (fun x => x = quoteChar) = (c :: cs2) ++ [quoteChar] := by
      simp [List.dropWhile_cons, hc]
    rw [h1]
    have h2 : ((c :: cs2) ++ [quoteChar]).reverse
        = quoteChar :: (c :: cs2).reverse := by
      simp
    rw [h2]
    have h3 : (quoteChar :: (c :: cs2).reverse).dropWhile
        (fun x => x = quoteChar) = (c :: cs2).reverse := by
      rw [List.dropWhile_cons]
      simp only [decide_eq_true_eq, if_pos rfl, reduceIte]
      exact dropWhile_no_quote _ (fun d hd => h d (List.mem_reverse.mp hd))
    rw [h3, List.reverse_reverse]

/-- Parsing the rendered date-time prefix recovers the six components. -/
theorem parseDateTimeCore_format (t : Timestamp) (hw : t.Wellformed) :
    parseDateTimeCore (formatRFC3339Nano t)
      = some (t.year, t.month, t.day, t.hour, t.minute, t.second,
          fracChars t.nanos ++ offsetChars t.offsetMinutes) := by
  obtain ⟨h1, h2, h3, h4, h5, h6, h7, h8, h9, h10, h11⟩ := hw
  have hy : t.year < 10 ^ 4 := by omega
  have hmo : t.month < 10 ^ 2 := by omega
  have hday : t.day < 10 ^ 2 := by omega
  have hh : t.hour < 10 ^ 2 := by omega
  have hmi : t.minute < 10 ^ 2 := by omega
  have hs : t.second < 10 ^ 2 := by omega
  have ed : (('-' : Char) = '-') = True := by simp
  have eT : (('T' : Char) = 'T') = True := by simp
  have ec : (((':') : Char) = ':') = True := by simp
  simp only [formatRFC3339Nano, List.append_assoc, List.cons_append]
  simp [parseDateTimeCore, readFixed_pad_of_lt 4 _ hy,
    readFixed_pad_of_lt 2 _ hmo, readFixed_pad_of_lt 2 _ hday,
    readFixed_pad_of_lt 2 _ hh, readFixed_pad_of_lt 2 _ hmi,
    readFixed_pad_of_lt 2 _ hs, expectChar, ed, eT, ec]

/-- Parsing the full RFC3339Nano rendering recovers the timestamp. -/
theorem parseRFC3339Nano_format (t : Timestamp) (hw : t.Wellformed) :
    parseRFC3339Nano (formatRFC3339Nano t) = some t := by
  have hoff := offsetChars_head_ok t.offsetMinutes
  have h10 : t.nanos ≤ 999999999 := hw.2.2.2.2.2.2.2.2.2.1
  have h11 : t.offsetMinutes.natAbs < 24 * 60 := hw.2.2.2.2.2.2.2.2.2.2
  have hfrac := parseFrac_fracChars t.nanos h10 (offsetChars t.offsetMinutes)
    hoff.1 hoff.2.1 hoff.2.2
  have hoffp := parseOffset_offsetChars t.offsetMinutes h11
  have hcv : componentsValid t.month t.day t.hour t.minute t.second := by
    obtain ⟨h1, h2, h3, h4, h5, h6, h7, h8, h9, -, -⟩ := hw
    exact ⟨h3, h4, h5, h6, h7, h8, h9⟩
  simp [parseRFC3339Nano, parseDateTimeCore_format t hw, hfrac, hoffp, hcv]

/-- The definition of `unmarshalTimestamp`, as an equation. -/
theorem unmarshalTimestamp_eq (raw : String) :
    unmarshalTimestamp raw
      = match parseRFC3339Nano (trimQuotes raw.data) with
        | some t => some t
        | none => parseNoColonLayout (trimQuotes raw.data) := rfl

/-- `time.Parse` of the marshalled value recovers the timestamp: the
UnmarshalJSON of a MarshalJSON output is the identity on wellformed
non-zero timestamps. -/
theorem unmarshal_marshal_timestamp (t : Timestamp) (hw : t.Wellformed)
    (hz : t.isZero = false) :
    unmarshalTimestamp (marshalTimestamp t) = some t := by
  have hzn : ¬(t.isZero = true) := by
    rw [hz]
    exact Bool.false_ne_true
  have hmar : marshalTimestamp t
      = String.mk (quoteChar :: formatRFC3339Nano t ++ [quoteChar]) := by
    unfold marshalTimestamp
    rw [if_neg hzn]
  rw [hmar, unmarshalTimestamp_eq]
  have hdata : (String.mk (quoteChar :: formatRFC3339Nano t ++ [quoteChar])).data
      = quoteChar :: formatRFC3339Nano t ++ [quoteChar] := rfl
  rw [hdata, trimQuotes_wrap _ (format_no_quote t), parseRFC3339Nano_format t hw]

/-- JSON round trip for `Account` at the JSON-tree level. -/
theorem account_roundtrip (a : Account) :
    Account.fromJson (Account.toJson a) = some a := by
  simp [Account.toJson, Account.fromJson, jsonLookup, asStringField, asBoolField]

/-! ## Claims about the JSON round trip -/

/-- C9 (counterexample): the zero `Timestamp` marshals to `null`, and
`UnmarshalJSON` rejects `null` (`strings.Trim` leaves it unchanged and
neither time layout parses it), so marshal-then-unmarshal is not the
identity on every value of the model types. -/
theorem C9_counterexample :
    marshalTimestamp ⟨1, 1, 1, 0, 0, 0, 0, 0⟩ = "null" ∧
    unmarshalTimestamp "null" = none ∧
    unmarshalTimestamp (marshalTimestamp ⟨1, 1, 1, 0, 0, 0, 0, 0⟩) = none := by
  decide

/-- C9 (amended): JSON marshal followed by unmarshal is the identity on the
model structures except at zero Timestamps: a plain struct such as
`Account` round-trips at the JSON-tree level, and a wellformed non-zero
`Timestamp` round-trips through its custom string marshalling, while a zero
Timestamp marshals to `null`, which `UnmarshalJSON` rejects. -/
theorem C9_json_roundtrip (t : Timestamp) (a : Account)
    (hw : t.Wellformed) (hz : t.isZero = false) :
    unmarshalTimestamp (marshalTimestamp t) = some t ∧
    Account.fromJson (Account.toJson a) = some a :=
  ⟨unmarshal_marshal_timestamp t hw hz, account_roundtrip a⟩

/-- C9 (witness): a concrete timestamp in the format the vendor emits, and
a concrete account, both round-trip. -/
theorem C9_witness :
    unmarshalTimestamp (marshalTimestamp ⟨2025, 8, 5, 20, 38, 54, 549229000, 120⟩)
      = some ⟨2025, 8, 5, 20, 38, 54, 549229000, 120⟩ ∧
    Account.fromJson (Account.toJson ⟨"seller", "s@example.com", true, true, false, true⟩)
      = some ⟨"seller", "s@example.com", true, true, false, true⟩ :=
  C9_json_roundtrip ⟨2025, 8, 5, 20, 38, 54, 549229000, 120⟩
    ⟨"seller", "s@example.com", true, true, false, true⟩
    (by refine ⟨?_, ?_, ?_, ?_, ?_, ?_, ?_, ?_, ?_, ?_, ?_⟩ <;> decide)
    (by decide)

end Manapool
